import Mathlib

set_option maxRecDepth 8000

/-!
# Verification of a Pedersen-committed DKG over curve25519

This development embeds the reference implementation (`src/main.rs`) of a
(t,n)-threshold distributed key generation protocol, with n = 5 parties and
threshold t = 3, over the prime-order subgroup of curve25519 generated by the
standard base point G.

Modelling choices:
* `Scalar` is `ZMod L`, where `L` is the order of the basepoint subgroup.
  The dalek library reduces the result of every arithmetic operation modulo
  `L`, so the protocol's scalar arithmetic is exactly arithmetic in `ZMod L`.
  Where a claim is about the *unreduced byte value* a `Scalar::from_bits`
  carries (key clamping), we reason at the level of natural numbers
  (`bytesToNat`, `clamp`) before casting into `ZMod L`.
* Every group element manipulated by the program lies in the cyclic subgroup
  generated by G (each one is produced by scalar multiplication of G or by
  sums of such points, and `EdwardsPoint::default()` is the identity), so a
  point is represented faithfully by its discrete logarithm with respect to
  G: `Point := ZMod L`, with point addition as `+` and scalar multiplication
  as `*`.  `G` itself is the element `1`.
* `Scalar::invert` computes `x^(L-2)` (Fermat inversion); since `L` is prime
  — proved below — this agrees with the field inverse of `ZMod L`, including
  mapping `0` to `0`.  We embed it as `⁻¹` of `ZMod L`.
* The modules `polynom.rs` and `pow.rs` are part of the repository but not
  available; the polynomial engine and scalar powers are modelled from the
  spec (§4.3): a polynomial is its coefficient list, evaluation is
  `Σ coeff[k]·x^k` (computed by Horner), and `pow` is monoid power.

The first part of the file proves that `L` is prime via Pratt/Lucas
certificates, so that `ZMod L` is a field; this is what makes Lagrange
interpolation (and hence Shamir reconstruction) provable in full generality.
-/

/-- The order of the prime-order subgroup of curve25519 generated by the
standard base point: `2^252 + 27742317777372353535851937790883648493`. -/
def L : ℕ := 7237005577332262213973186563042994240857116359379907606001950938285454250989

/-- Fuel-indexed fast modular exponentiation (square-and-multiply), used only
to make the Lucas primality certificates kernel-checkable. -/
def powModAux : ℕ → ℕ → ℕ → ℕ → ℕ
  | 0, _, _, n => 1 % n
  | fuel + 1, a, e, n =>
    if e = 0 then 1 % n
    else
      let r := powModAux fuel (a * a % n) (e / 2) n
      if e % 2 = 1 then r * a % n else r

theorem powModAux_eq (fuel : ℕ) : ∀ a e n : ℕ, 0 < n → e < 2 ^ fuel →
    powModAux fuel a e n = a ^ e % n := by
  induction fuel with
  | zero =>
    intro a e n _ he
    interval_cases e
    simp [powModAux]
  | succ fuel ih =>
    intro a e n hn he
    by_cases he0 : e = 0
    · simp [powModAux, he0]
    · have hdiv : e / 2 < 2 ^ fuel := by
        have h2 : (0:ℕ) < 2 := two_pos
        rw [Nat.div_lt_iff_lt_mul h2]
        calc e < 2 ^ (fuel + 1) := he
        _ = 2 ^ fuel * 2 := by ring
      have hr := ih (a * a % n) (e / 2) n hn hdiv
      have hsq : (a * a % n) ^ (e / 2) % n = a ^ (2 * (e / 2)) % n := by
        rw [← Nat.pow_mod, two_mul, pow_add, mul_pow]
      have hmod := Nat.div_add_mod e 2
      rcases Nat.mod_two_eq_zero_or_one e with hpar | hpar
      · have hee : e = 2 * (e / 2) := by omega
        simp only [powModAux, he0, if_false, hpar]
        norm_num
        rw [hr, hsq, ← hee]
      · have hee : e = 2 * (e / 2) + 1 := by omega
        simp only [powModAux, he0, if_false, hpar, if_true]
        rw [hr, hsq, Nat.mod_mul_mod, ← pow_succ, ← hee]

/-- A checkable Lucas (Pratt) primality certificate: `a` has order `p - 1`
modulo `p`, witnessed by fast modular exponentiations and the full prime
factor list `qs` of `p - 1`. -/
theorem prime_of_lucas_cert (p a fuel : ℕ) (qs : List ℕ)
    (hp : 2 ≤ p)
    (hfuel : p - 1 < 2 ^ fuel)
    (hprod : qs.prod = p - 1)
    (hqs : ∀ q ∈ qs, q.Prime)
    (ha : powModAux fuel a (p - 1) p = 1)
    (hd : ∀ q ∈ qs, powModAux fuel a ((p - 1) / q) p ≠ 1) :
    p.Prime := by
  have hp0 : 0 < p := by omega
  have cast_pow_eq : ∀ e : ℕ, e < 2 ^ fuel →
      ((a : ZMod p) ^ e = ((powModAux fuel a e p : ℕ) : ZMod p)) := by
    intro e he
    rw [powModAux_eq fuel a e p hp0 he, ← Nat.cast_pow, ZMod.natCast_mod]
  have one_lt : 1 % p = 1 := Nat.mod_eq_of_lt (by omega)
  apply lucas_primality p (a : ZMod p)
  · rw [cast_pow_eq (p - 1) hfuel, ha, Nat.cast_one]
  · intro q hq hqdvd
    have hqprod : q ∣ qs.prod := hprod ▸ hqdvd
    obtain ⟨r, hr, hqr⟩ := (hq.prime.dvd_prod_iff).mp hqprod
    have hqeq : q = r := (Nat.prime_dvd_prime_iff_eq hq (hqs r hr)).mp hqr
    subst hqeq
    have hlt : (p - 1) / q < 2 ^ fuel := lt_of_le_of_lt (Nat.div_le_self _ _) hfuel
    rw [cast_pow_eq ((p - 1) / q) hlt]
    intro hcontra
    apply hd q hr
    have hmods := (ZMod.natCast_eq_natCast_iff' (powModAux fuel a ((p - 1) / q) p) 1 p).mp
      (by rw [Nat.cast_one]; exact hcontra)
    have hx := powModAux_eq fuel a ((p - 1) / q) p hp0 hlt
    rw [hx, Nat.mod_mod_of_dvd _ dvd_rfl, one_lt] at hmods
    rw [hx]
    exact hmods

theorem prime_531581 : Nat.Prime 531581 := by
  apply prime_of_lucas_cert 531581 2 260 [2, 2, 5, 7, 3797]
  · norm_num
  · norm_num
  · decide
  · intro q hq
    fin_cases hq <;> first | norm_num
  · decide
  · intro q hq
    fin_cases hq <;> decide

theorem prime_1224481 : Nat.Prime 1224481 := by
  apply prime_of_lucas_cert 1224481 13 260 [2, 2, 2, 2, 2, 3, 5, 2551]
  · norm_num
  · norm_num
  · decide
  · intro q hq
    fin_cases hq <;> first | norm_num
  · decide
  · intro q hq
    fin_cases hq <;> decide

theorem prime_292386187 : Nat.Prime 292386187 := by
  apply prime_of_lucas_cert 292386187 2 260 [2, 3, 3, 3, 3, 307, 5879]
  · norm_num
  · norm_num
  · decide
  · intro q hq
    fin_cases hq <;> first | norm_num
  · decide
  · intro q hq
    fin_cases hq <;> decide

theorem prime_14741173 : Nat.Prime 14741173 := by
  apply prime_of_lucas_cert 14741173 2 260 [2, 2, 3, 3, 409477]
  · norm_num
  · norm_num
  · decide
  · intro q hq
    fin_cases hq <;> first | norm_num
  · decide
  · intro q hq
    fin_cases hq <;> decide

theorem prime_58964693 : Nat.Prime 58964693 := by
  apply prime_of_lucas_cert 58964693 2 260 [2, 2, 14741173]
  · norm_num
  · norm_num
  · decide
  · intro q hq
    fin_cases hq <;> first | exact prime_14741173 | norm_num
  · decide
  · intro q hq
    fin_cases hq <;> decide

theorem prime_213441916511 : Nat.Prime 213441916511 := by
  apply prime_of_lucas_cert 213441916511 13 260 [2, 5, 73, 292386187]
  · norm_num
  · norm_num
  · decide
  · intro q hq
    fin_cases hq <;> first | exact prime_292386187 | norm_num
  · decide
  · intro q hq
    fin_cases hq <;> decide

theorem prime_1257559732178653 : Nat.Prime 1257559732178653 := by
  apply prime_of_lucas_cert 1257559732178653 2 260 [2, 2, 3, 7, 23, 531581, 1224481]
  · norm_num
  · norm_num
  · decide
  · intro q hq
    fin_cases hq <;> first | exact prime_531581 | exact prime_1224481 | norm_num
  · decide
  · intro q hq
    fin_cases hq <;> decide

theorem prime_4434155615661930479 : Nat.Prime 4434155615661930479 := by
  apply prime_of_lucas_cert 4434155615661930479 17 260 [2, 41, 43, 1257559732178653]
  · norm_num
  · norm_num
  · decide
  · intro q hq
    fin_cases hq <;> first | exact prime_1257559732178653 | norm_num
  · decide
  · intro q hq
    fin_cases hq <;> decide

theorem prime_3044861653679985063343 : Nat.Prime 3044861653679985063343 := by
  apply prime_of_lucas_cert 3044861653679985063343 5 260 [2, 3, 11, 30703, 82163, 132667, 137849]
  · norm_num
  · norm_num
  · decide
  · intro q hq
    fin_cases hq <;> first | norm_num
  · decide
  · intro q hq
    fin_cases hq <;> decide

theorem prime_172054593956031949258510691 : Nat.Prime 172054593956031949258510691 := by
  apply prime_of_lucas_cert 172054593956031949258510691 2 260 [2, 5, 1361, 2851, 4434155615661930479]
  · norm_num
  · norm_num
  · decide
  · intro q hq
    fin_cases hq <;> first | exact prime_4434155615661930479 | norm_num
  · decide
  · intro q hq
    fin_cases hq <;> decide

theorem prime_198211423230930754013084525763697 : Nat.Prime 198211423230930754013084525763697 := by
  apply prime_of_lucas_cert 198211423230930754013084525763697 5 260 [2, 2, 2, 2, 3, 23, 58964693, 3044861653679985063343]
  · norm_num
  · norm_num
  · decide
  · intro q hq
    fin_cases hq <;> first | exact prime_58964693 | exact prime_3044861653679985063343 | norm_num
  · decide
  · intro q hq
    fin_cases hq <;> decide

theorem prime_19757330305831588566944191468367130476339 : Nat.Prime 19757330305831588566944191468367130476339 := by
  apply prime_of_lucas_cert 19757330305831588566944191468367130476339 2 260 [2, 269, 213441916511, 172054593956031949258510691]
  · norm_num
  · norm_num
  · decide
  · intro q hq
    fin_cases hq <;> first | exact prime_213441916511 | exact prime_172054593956031949258510691 | norm_num
  · decide
  · intro q hq
    fin_cases hq <;> decide

theorem prime_276602624281642239937218680557139826668747 : Nat.Prime 276602624281642239937218680557139826668747 := by
  apply prime_of_lucas_cert 276602624281642239937218680557139826668747 2 260 [2, 7, 19757330305831588566944191468367130476339]
  · norm_num
  · norm_num
  · decide
  · intro q hq
    fin_cases hq <;> first | exact prime_19757330305831588566944191468367130476339 | norm_num
  · decide
  · intro q hq
    fin_cases hq <;> decide

/-- The constant `L` — the order of the curve25519 basepoint subgroup — is prime.  Proved by
a chain of Lucas (Pratt) certificates whose modular exponentiations are
kernel-checked with `powModAux`. -/
theorem L_prime : Nat.Prime L := by
  apply prime_of_lucas_cert L 2 260 [2, 2, 3, 11, 198211423230930754013084525763697, 276602624281642239937218680557139826668747]
  · norm_num [L]
  · norm_num [L]
  · decide
  · intro q hq
    fin_cases hq <;> first | exact prime_198211423230930754013084525763697 | exact prime_276602624281642239937218680557139826668747 | norm_num
  · decide
  · intro q hq
    fin_cases hq <;> decide

instance : Fact (Nat.Prime L) := ⟨L_prime⟩

/-! ## The protocol embedding

`Scalar` models `curve25519_dalek::scalar::Scalar`: the library reduces every
arithmetic result modulo `L`.  `Point` models `EdwardsPoint` restricted to the
subgroup generated by the standard base point `G` — which contains every point
the program manipulates — represented by the discrete logarithm w.r.t. `G`;
point addition is `+`, scalar multiplication is `*`, the identity
(`EdwardsPoint::default()`) is `0`, and `G` itself is `1`. -/

abbrev Scalar := ZMod L

abbrev Point := ZMod L

/-- The standard base point (`constants::ED25519_BASEPOINT_TABLE`), as its own
discrete logarithm: `1`. -/
def G : Point := 1

/-- Models `&s * &constants::ED25519_BASEPOINT_TABLE` — fixed-base scalar
multiplication. -/
def basepointMul (s : Scalar) : Point := s * G

/-- The value of a little-endian 32-byte string, as the dalek library
interprets scalar encodings. -/
def bytesToNat (b : Fin 32 → ℕ) : ℕ := ∑ i : Fin 32, b i * 256 ^ (i : ℕ)

/-- Models `Scalar::from_bytes_mod_order`: the byte value reduced mod `L`. -/
def from_bytes_mod_order (b : Fin 32 → ℕ) : Scalar := (bytesToNat b : ZMod L)

/-- Models `Scalar::from_bits`: dalek stores the 255-bit byte value without
reducing it; as an element of the scalar field the scalar it denotes is the
residue of that value mod `L`.  Claims about reducedness of the stored value
are stated directly on `bytesToNat`. -/
def from_bits (b : Fin 32 → ℕ) : Scalar := (bytesToNat b : ZMod L)

/-- The fixed 32-byte constant `[255u8; 32]` from the source (line 18). -/
def seedFF : Fin 32 → ℕ := fun _ => 255

/-- Models `let PEDERSEN_BASE_POINT = &Scalar::from_bytes_mod_order(PREFIX) *
&constants::ED25519_BASEPOINT_TABLE;` (source lines 32–33) — the second
Pedersen base point H. -/
def PEDERSEN_BASE_POINT : Point := from_bytes_mod_order seedFF * G

/-- Pedersen blinding (source line 59):
`commits[i] = &key_pairs[i].1 + &(&r_arr[i] * &PEDERSEN_BASE_POINT)`. -/
def blind (publicPoint : Point) (r : Scalar) : Point :=
  publicPoint + r * PEDERSEN_BASE_POINT

/-- Pedersen unblinding (source line 68):
`commits_unblinded[i] = &commits[i] - &(&r_arr[i] * &PEDERSEN_BASE_POINT)`. -/
def unblind (c : Point) (r : Scalar) : Point :=
  c - r * PEDERSEN_BASE_POINT

/-- RFC-style scalar clamping (source lines 178–180):
`bytes[0] &= 248; bytes[31] &= 127; bytes[31] |= 64`. -/
def clamp (b : Fin 32 → ℕ) : Fin 32 → ℕ := fun i =>
  if i = 0 then b 0 &&& 248
  else if i = 31 then (b 31 &&& 127) ||| 64
  else b i

/-- Models `generate_key_pair` (source lines 168–185), with its two external
collaborators as parameters: the 32 bytes drawn from the csprng (`seed`) and
the SHA-512 digest function (`sha512`, producing 64 bytes of which the first
32 are kept).  The clamped bytes are turned into a scalar with
`Scalar::from_bits` and the public point is the fixed-base multiplication of
that scalar. -/
def generate_key_pair (sha512 : (Fin 32 → ℕ) → Fin 64 → ℕ) (seed : Fin 32 → ℕ) :
    Scalar × Point :=
  let digest : Fin 32 → ℕ := fun i => sha512 seed (i.castLE (by norm_num))
  let bytes := clamp digest
  let sk := from_bits bytes
  (sk, basepointMul sk)

/-- Modelled from the spec: the repository module `polynom.rs` is not
available under `src/`.  Spec §3: a Polynomial is its ordered coefficient
list `coeff[0..t)`. -/
structure Polynom where
  coeffs : List Scalar

/-- Modelled from the spec: `evaluate(polynomial, x)` computes
`Σ coeff[k]·x^k` (§4.3; Horner form, which the spec prefers). -/
def evalCoeffs : List Scalar → Scalar → Scalar
  | [], _ => 0
  | c :: cs, x => c + x * evalCoeffs cs x

/-- Models `Polynom::at` (`at` is a Lean keyword, hence the name). -/
def Polynom.valueAt (p : Polynom) (x : Scalar) : Scalar := evalCoeffs p.coeffs x

/-- Modelled from the spec: `Polynom::random(csprng, secret, T - 1)` builds a
degree-2 polynomial with `coeff[0] = secret` (§4.3); the csprng draws for the
two higher coefficients are taken as parameters `c1`, `c2`. -/
def Polynom.ofSecret (secret c1 c2 : Scalar) : Polynom := ⟨[secret, c1, c2]⟩

/-- The party indices `xs = [1, 2, 3, 4, 5]` (source lines 23–29). -/
def xs : Fin 5 → Scalar := fun i => (((i : ℕ) + 1 : ℕ) : Scalar)

/-- The five parties' polynomials (source lines 77–83), parametrized by each
party's secret `sk i` and its two random coefficients `c1 i`, `c2 i`. -/
def polynoms (sk c1 c2 : Fin 5 → Scalar) : Fin 5 → Polynom :=
  fun i => Polynom.ofSecret (sk i) (c1 i) (c2 i)

/-- Models `s_arr[i][j] = polynoms[i].at(&xs[j])` (source lines 102–110). -/
def s_arr (sk c1 c2 : Fin 5 → Scalar) (i j : Fin 5) : Scalar :=
  (polynoms sk c1 c2 i).valueAt (xs j)

/-- Final share aggregation (source lines 135–143):
`shares[i] = Σ_j s_arr[j][i]`. -/
def shares (sk c1 c2 : Fin 5 → Scalar) (i : Fin 5) : Scalar :=
  ∑ j : Fin 5, s_arr sk c1 c2 j i

/-- Models `commits[i]` (source lines 56–62): the blinded public key of party `i`,
whose public point is `basepointMul (sk i)` as produced by
`generate_key_pair`. -/
def commits (sk r : Fin 5 → Scalar) (i : Fin 5) : Point :=
  blind (basepointMul (sk i)) (r i)

/-- Models `commits_unblinded[i]` (source lines 65–71). -/
def commits_unblinded (sk r : Fin 5 → Scalar) (i : Fin 5) : Point :=
  unblind (commits sk r i) (r i)

/-- The aggregate public key (source line 74):
`commits_unblinded.iter().sum()`. -/
def public_key (sk r : Fin 5 → Scalar) : Point :=
  ∑ i : Fin 5, commits_unblinded sk r i

/-- The published verification vector `F_arr` (source lines 86–98).  Index 0
is set to the party's public key; the inner loop `for j in 1..(T - 1)` runs
only for `j = 1`, so index `T - 1 = 2` keeps `EdwardsPoint::default()`, the
identity. -/
def F_arr (sk c1 c2 : Fin 5 → Scalar) : Fin 5 → Fin 3 → Point :=
  fun i k =>
    if k = 0 then basepointMul (sk i)
    else if k = 1 then (polynoms sk c1 c2 i).coeffs.getD 1 0 * G
    else 0

/-- The Feldman consistency sum computed by the verification loop (source
lines 122–126): `Σ_{k<T} j_index^k · F[k]`.  The scalar `pow` comes from the
missing `pow.rs`; modelled from the spec (§4.4) as `x^k`. -/
def feldman_sum (F : Fin 3 → Point) (j_index : Scalar) : Point :=
  ∑ k : Fin 3, j_index ^ (k : ℕ) * F k

/-- The equation asserted by the verification loop (source line 128):
`sum == &s_arr[i][j] * &ED25519_BASEPOINT_TABLE`. -/
def feldman_check (sk c1 c2 : Fin 5 → Scalar) (i j : Fin 5) : Prop :=
  feldman_sum (F_arr sk c1 c2 i) (xs j) = basepointMul (s_arr sk c1 c2 i j)

/-- The (sender i, receiver j) index pairs the verification loop actually
visits (source lines 114–130): `for i in 0..N { for j in 0..T { if i == j
{ continue; } ... } }` — note the receiver bound is `T`, not `N`. -/
def feldmanCheckedPairs : List (ℕ × ℕ) :=
  (List.range 5).flatMap fun i =>
    ((List.range 3).filter fun j => i != j).map fun j => (i, j)

/-- Models `lagrange_coeffs_at_zero` (source lines 154–166):
`cs[i] = Π_{j ≠ i} xs[j] * (xs[j] - xs[i]).invert()`, where
`Scalar::invert` is Fermat inversion `x^(L-2)`, i.e. the field inverse of
`ZMod L` (with `0⁻¹ = 0`). -/
def lagrange_coeffs_at_zero (x : Fin 3 → Scalar) : Fin 3 → Scalar :=
  fun i => ∏ j : Fin 3, if i ≠ j then x j * (x j - x i)⁻¹ else 1

/-- Models `shamir_reconstruct` (source lines 187–196). -/
def shamir_reconstruct (x sh : Fin 3 → Scalar) : Scalar :=
  ∑ i : Fin 3, lagrange_coeffs_at_zero x i * sh i

/-- Models `xs[0..T]` (source line 146): the indices `[1, 2, 3]` used for the
correctness check. -/
def reconstruct_participants : Fin 3 → Scalar :=
  fun i => xs (i.castLE (by norm_num))

/-- Models `shares[0..T]` (source line 147). -/
def reconstruct_shares (sk c1 c2 : Fin 5 → Scalar) : Fin 3 → Scalar :=
  fun i => shares sk c1 c2 (i.castLE (by norm_num))

/-- Models `let secret = shamir_reconstruct(...)` (source line 149). -/
def reconstructed_secret (sk c1 c2 : Fin 5 → Scalar) : Scalar :=
  shamir_reconstruct reconstruct_participants (reconstruct_shares sk c1 c2)

/-! ## Helper lemmas -/

theorem land248_mod8 : ∀ x : Fin 256, ((x : ℕ) &&& 248) % 8 = 0 := by decide

theorem land248_le : ∀ x : Fin 256, ((x : ℕ) &&& 248) ≤ 248 := by decide

theorem byte31_bounds : ∀ x : Fin 256,
    64 ≤ (((x : ℕ) &&& 127) ||| 64) ∧ (((x : ℕ) &&& 127) ||| 64) ≤ 127 := by decide

/-! ## Claims -/

/-- C5: Pedersen round-trip law: for every point `P` and every blinder
scalar `r`, `unblind (blind P r) r = P` exactly, where
`blind P r = P + r·H` and `unblind C r = C - r·H` with the fixed second base
point `H = PEDERSEN_BASE_POINT`. -/
theorem C5_pedersen_round_trip (P : Point) (r : Scalar) :
    unblind (blind P r) r = P := by
  simp [blind, unblind]

/-- C7: `generate_key_pair` hashes the 32 random bytes with SHA-512 (taken
as a parameter, being an external collaborator), keeps the first 32 bytes of
the digest, clamps them — clearing the low 3 bits of byte 0 (`&&& 248`),
clearing the top bit and setting the second-highest bit of byte 31
(`&&& 127`, `||| 64`) — interprets them as the secret scalar via
`Scalar::from_bits`, and returns `(s, P)` with `P = s·G` (fixed-base
multiplication). -/
theorem C7_generate_key_pair_spec (sha512 : (Fin 32 → ℕ) → Fin 64 → ℕ)
    (seed : Fin 32 → ℕ) :
    (generate_key_pair sha512 seed).1 =
      from_bits (clamp fun i : Fin 32 => sha512 seed (i.castLE (by norm_num))) ∧
    (generate_key_pair sha512 seed).2 = basepointMul (generate_key_pair sha512 seed).1 ∧
    (∀ b : Fin 32 → ℕ,
      clamp b 0 = b 0 &&& 248 ∧
      clamp b 31 = (b 31 &&& 127) ||| 64 ∧
      ∀ i : Fin 32, i ≠ 0 → i ≠ 31 → clamp b i = b i) := by
  refine ⟨rfl, rfl, fun b => ⟨rfl, rfl, fun i h0 h31 => ?_⟩⟩
  simp [clamp, h0, h31]

/-- The unreduced byte value of the clamped secret that
`generate_key_pair sha512 seed` stores in its `Scalar::from_bits` result. -/
def clampedDigestNat (sha512 : (Fin 32 → ℕ) → Fin 64 → ℕ) (seed : Fin 32 → ℕ) : ℕ :=
  bytesToNat (clamp fun i : Fin 32 => sha512 seed (i.castLE (by norm_num)))

theorem clamped_value_range (d : Fin 32 → ℕ) (hd : ∀ i, d i < 256) :
    2 ^ 254 ≤ bytesToNat (clamp d) ∧ bytesToNat (clamp d) < 2 ^ 255 ∧
    8 ∣ bytesToNat (clamp d) := by
  have h31 : clamp d 31 = (d 31 &&& 127) ||| 64 := rfl
  have h0 : clamp d 0 = d 0 &&& 248 := rfl
  have hb31 := byte31_bounds ⟨d 31, hd 31⟩
  refine ⟨?_, ?_, ?_⟩
  · calc (2:ℕ) ^ 254 = 64 * 256 ^ 31 := by norm_num
    _ ≤ clamp d 31 * 256 ^ 31 := by
        apply Nat.mul_le_mul_right
        rw [h31]
        exact hb31.1
    _ = clamp d 31 * 256 ^ ((31 : Fin 32) : ℕ) := by rfl
    _ ≤ bytesToNat (clamp d) := by
        apply Finset.single_le_sum (f := fun i : Fin 32 => clamp d i * 256 ^ (i : ℕ))
        · intro i _
          exact Nat.zero_le _
        · exact Finset.mem_univ _
  · have hle : bytesToNat (clamp d) ≤
        ∑ i : Fin 32, (if i = 31 then 127 else 255) * 256 ^ (i : ℕ) := by
      apply Finset.sum_le_sum
      intro i _
      apply Nat.mul_le_mul_right
      by_cases hi : i = (31 : Fin 32)
      · subst hi
        simp only [if_true, h31]
        exact hb31.2
      · rw [if_neg hi]
        by_cases hi0 : i = 0
        · subst hi0
          rw [h0]
          exact le_trans (land248_le ⟨d 0, hd 0⟩) (by norm_num)
        · have : clamp d i = d i := by simp [clamp, hi0, hi]
          rw [this]
          exact Nat.le_of_lt_succ (hd i)
    have hval : (∑ i : Fin 32, (if i = 31 then 127 else 255) * 256 ^ (i : ℕ)) < 2 ^ 255 := by
      decide
    exact lt_of_le_of_lt hle hval
  · apply Finset.dvd_sum
    intro i _
    by_cases hi0 : i = 0
    · subst hi0
      apply Dvd.dvd.mul_right
      rw [h0]
      exact Nat.dvd_of_mod_eq_zero (land248_mod8 ⟨d 0, hd 0⟩)
    · apply Dvd.dvd.mul_left
      have hne : ((i : ℕ)) ≠ 0 := fun h => hi0 (Fin.ext h)
      exact dvd_trans (by norm_num) (dvd_pow_self 256 hne)

/-- The clamped secret value is never divisible by `L`: the multiples of `L`
inside `[2^254, 2^255)` are `4L`, `5L`, `6L`, `7L`, none of which is
divisible by 8. -/
theorem clamped_value_not_dvd_L (v : ℕ) (h254 : 2 ^ 254 ≤ v) (h255 : v < 2 ^ 255)
    (h8 : 8 ∣ v) : ¬ L ∣ v := by
  rintro ⟨k, rfl⟩
  have hk4 : 4 ≤ k := by
    by_contra hlt
    have hk3 : k ≤ 3 := by omega
    have : L * k ≤ L * 3 := Nat.mul_le_mul_left L hk3
    have h3L : L * 3 < 2 ^ 254 := by norm_num [L]
    omega
  have hk8 : k < 8 := by
    by_contra hge
    have h8k : 8 ≤ k := by omega
    have : L * 8 ≤ L * k := Nat.mul_le_mul_left L h8k
    have h8L : 2 ^ 255 < L * 8 := by norm_num [L]
    omega
  have hcop : Nat.Coprime 8 L := by norm_num [Nat.Coprime, L]
  have hdvdk : 8 ∣ k := hcop.dvd_of_dvd_mul_left h8
  omega

instance : NeZero L := ⟨by norm_num [L]⟩

/-- C10: for every randomness stream (a SHA-512 digest is a byte string, so
each byte is < 256), the clamped secret's byte value lies in
`[2^254, 2^255)` and is divisible by 8; consequently it is not a multiple of
`L`, the secret scalar is nonzero, and the returned public point is never
the group identity. -/
theorem C10_clamped_secret_nonzero (sha512 : (Fin 32 → ℕ) → Fin 64 → ℕ)
    (seed : Fin 32 → ℕ) (hd : ∀ i : Fin 64, sha512 seed i < 256) :
    2 ^ 254 ≤ clampedDigestNat sha512 seed ∧
    clampedDigestNat sha512 seed < 2 ^ 255 ∧
    8 ∣ clampedDigestNat sha512 seed ∧
    (generate_key_pair sha512 seed).1 ≠ 0 ∧
    (generate_key_pair sha512 seed).2 ≠ (0 : Point) := by
  obtain ⟨hA, hB, hC⟩ := clamped_value_range
    (fun i : Fin 32 => sha512 seed (i.castLE (by norm_num))) (fun i => hd _)
  have hndvd := clamped_value_not_dvd_L _ hA hB hC
  have hne : ((clampedDigestNat sha512 seed : ℕ) : ZMod L) ≠ 0 := by
    rw [Ne, ZMod.natCast_zmod_eq_zero_iff_dvd]
    exact hndvd
  have hsk : (generate_key_pair sha512 seed).1 =
      ((clampedDigestNat sha512 seed : ℕ) : ZMod L) := rfl
  refine ⟨hA, hB, hC, ?_, ?_⟩
  · rw [hsk]
    exact hne
  · show basepointMul (generate_key_pair sha512 seed).1 ≠ 0
    rw [basepointMul, G, mul_one, hsk]
    exact hne

/-- Witness for C10 at the all-zero digest function and all-zero seed. -/
theorem C10_witness :
    (∀ i : Fin 64, (fun (_ : Fin 32 → ℕ) (_ : Fin 64) => (0:ℕ)) (fun _ : Fin 32 => (0:ℕ)) i < 256) ∧
    (generate_key_pair (fun _ _ => 0) (fun _ => 0)).1 ≠ 0 ∧
    (generate_key_pair (fun _ _ => 0) (fun _ => 0)).2 ≠ (0 : Point) := by
  have h : ∀ i : Fin 64,
      (fun (_ : Fin 32 → ℕ) (_ : Fin 64) => (0:ℕ)) (fun _ : Fin 32 => (0:ℕ)) i < 256 :=
    fun _ => by norm_num
  obtain ⟨_, _, _, h1, h2⟩ := C10_clamped_secret_nonzero (fun _ _ => 0) (fun _ => 0) h
  exact ⟨h, h1, h2⟩

/-- C8 counterexample: with the all-zero digest, the clamped secret value is
`2^254`, which is not less than the group order `L` — the secret scalar
produced by `generate_key_pair` is not a properly-reduced field element. -/
theorem C8_counterexample :
    clampedDigestNat (fun _ _ => 0) (fun _ => 0) = 2 ^ 254 ∧
    ¬ clampedDigestNat (fun _ _ => 0) (fun _ => 0) < L := by
  constructor
  · decide
  · decide

/-- C8 amended: the secret scalar's stored byte value is *never* reduced —
it always reaches at least `2^254 > L` — and it is used as-is (cast into the
field by `Scalar::from_bits`) rather than rejected. -/
theorem C8_secret_never_reduced (sha512 : (Fin 32 → ℕ) → Fin 64 → ℕ)
    (seed : Fin 32 → ℕ) (hd : ∀ i : Fin 64, sha512 seed i < 256) :
    L ≤ clampedDigestNat sha512 seed ∧
    (generate_key_pair sha512 seed).1 = ((clampedDigestNat sha512 seed : ℕ) : Scalar) := by
  obtain ⟨hA, _, _⟩ := clamped_value_range
    (fun i : Fin 32 => sha512 seed (i.castLE (by norm_num))) (fun i => hd _)
  refine ⟨le_trans (by norm_num [L]) hA, rfl⟩

/-- Witness for C8's amended statement at the all-zero digest function. -/
theorem C8_witness :
    (∀ i : Fin 64, (fun (_ : Fin 32 → ℕ) (_ : Fin 64) => (0:ℕ)) (fun _ : Fin 32 => (0:ℕ)) i < 256) ∧
    L ≤ clampedDigestNat (fun _ _ => 0) (fun _ => 0) := by
  have h : ∀ i : Fin 64,
      (fun (_ : Fin 32 → ℕ) (_ : Fin 64) => (0:ℕ)) (fun _ : Fin 32 => (0:ℕ)) i < 256 :=
    fun _ => by norm_num
  exact ⟨h, (C8_secret_never_reduced (fun _ _ => 0) (fun _ => 0) h).1⟩

/-- C9 counterexample: the Pedersen base point `H` is *not* obtained by
hashing a seed into the group: it is computed as a known scalar times `G`,
and its discrete logarithm relative to `G` is the explicit public constant
`(2^256 - 1) mod L` — every party can read it off the source.  The
no-trapdoor property claimed by the spec is therefore false for this code. -/
theorem C9_counterexample :
    PEDERSEN_BASE_POINT =
      basepointMul (7237005577332262213973186563042994240413239274941949949428319933631315875100 : Scalar) := by
  decide

/-- C9 amended: `H` is derived once, deterministically, from the fixed
public 32-byte constant `[0xFF; 32]` — but by reducing that constant modulo
`L` and multiplying the standard base point by it, not by hashing into the
group; its discrete logarithm relative to `G` is therefore publicly known
(namely `2^256 - 1 mod L`). -/
theorem C9_pedersen_base_derivation :
    PEDERSEN_BASE_POINT = from_bytes_mod_order seedFF * G ∧
    bytesToNat seedFF = 2 ^ 256 - 1 ∧
    from_bytes_mod_order seedFF =
      ((2 ^ 256 - 1 : ℕ) : Scalar) := by
  refine ⟨rfl, by decide, by decide⟩

/-- C4 (code bug): with party 0's polynomial coefficients `(0, 0, 1)`, the
published verification vector's top-degree entry `F_arr[0][2]` is the
identity (`EdwardsPoint::default()`), not the commitment `coeff[2]·G = G`:
the fill loop `for j in 1..(T - 1)` stops before the top degree. -/
theorem C4_top_coefficient_not_committed :
    F_arr (fun _ => 0) (fun _ => 0) (fun _ => 1) 0 2 = (0 : Point) ∧
    (polynoms (fun _ => 0) (fun _ => 0) (fun _ => 1) 0).coeffs.getD 2 0 * G = G ∧
    (0 : Point) ≠ G := by
  refine ⟨rfl, by decide, by decide⟩

/-- C3 (code bug): the verification loop's receiver index only ranges over
`0..T`, so the pair (sender 0, receiver 3) is never visited; moreover, for
the pairs it does visit the checked equation is false whenever the sender's
top coefficient is nonzero (here coefficients `(0, 0, 1)`, receiver 1),
because `F_arr[0][2]` is the identity instead of `coeff[2]·G`. -/
theorem C3_verification_loop_incomplete :
    (0, 3) ∉ feldmanCheckedPairs ∧
    ¬ feldman_check (fun _ => 0) (fun _ => 0) (fun _ => 1) 0 1 := by
  refine ⟨by decide, ?_⟩
  unfold feldman_check
  decide

theorem shamir_reconstruct_dup_one_one_two (sh : Fin 3 → Scalar) :
    shamir_reconstruct ![1, 1, 2] sh = sh 2 := by
  have e0 : (![1, 1, 2] : Fin 3 → Scalar) 0 = 1 := rfl
  have e1 : (![1, 1, 2] : Fin 3 → Scalar) 1 = 1 := rfl
  have e2 : (![1, 1, 2] : Fin 3 → Scalar) 2 = 2 := rfl
  unfold shamir_reconstruct lagrange_coeffs_at_zero
  rw [Fin.sum_univ_three, Fin.prod_univ_three, Fin.prod_univ_three, Fin.prod_univ_three]
  simp only [e0, e1, e2]
  norm_num [sub_self, inv_zero, inv_neg_one,
    show (0 : Fin 3) ≠ 2 by decide, show (1 : Fin 3) ≠ 2 by decide,
    show (2 : Fin 3) ≠ 1 by decide, show (2 : Fin 3) ≠ 0 by decide]

/-- C6 counterexample: reconstruction with the duplicate index set {1, 1, 2}
does not fail — `Scalar::invert` maps the zero difference to zero — and
silently returns a wrong scalar: on the shares `(3, 3, 5)` of the polynomial
`1 + 2x` (secret 1, since f(1) = 3 and f(2) = 5) it returns 5, not 1. -/
theorem C6_counterexample :
    shamir_reconstruct ![1, 1, 2] ![3, 3, 5] = 5 ∧ (5 : Scalar) ≠ 1 := by
  refine ⟨?_, by decide⟩
  rw [shamir_reconstruct_dup_one_one_two]
  rfl

/-- C6 amended: for the duplicate index set {1, 1, 2}, the zero-difference
inversion yields zero, the Lagrange coefficients of the two duplicated slots
vanish, and `shamir_reconstruct` silently returns the polynomial's value at
index 2 — in general a wrong scalar, not the secret `coeff[0]` — instead of
failing. -/
theorem C6_duplicate_indices_silently_wrong (a0 a1 a2 : Scalar) :
    shamir_reconstruct ![1, 1, 2]
      ![(Polynom.mk [a0, a1, a2]).valueAt 1, (Polynom.mk [a0, a1, a2]).valueAt 1,
        (Polynom.mk [a0, a1, a2]).valueAt 2] =
    (Polynom.mk [a0, a1, a2]).valueAt 2 := by
  rw [shamir_reconstruct_dup_one_one_two]
  rfl

/-- C2: Shamir reconstruction postcondition: for every polynomial of degree
`t - 1 = 2` (coefficients `a0, a1, a2`) and every choice of `t = 3`
pairwise-distinct nonzero indices, `shamir_reconstruct` applied to those
indices and the polynomial's values at them returns the polynomial's value
at zero, `a0` — hence the result is the same (`a0`) for *every* qualifying
subset of size `t`, independent of which valid (index, share) pairs are
chosen. -/
theorem C2_shamir_reconstruct_recovers_secret (a0 a1 a2 x0 x1 x2 : Scalar)
    (h01 : x0 ≠ x1) (h02 : x0 ≠ x2) (h12 : x1 ≠ x2)
    (hx0 : x0 ≠ 0) (hx1 : x1 ≠ 0) (hx2 : x2 ≠ 0) :
    shamir_reconstruct ![x0, x1, x2]
      ![(Polynom.mk [a0, a1, a2]).valueAt x0,
        (Polynom.mk [a0, a1, a2]).valueAt x1,
        (Polynom.mk [a0, a1, a2]).valueAt x2] = a0 := by
  have e0 : (![x0, x1, x2] : Fin 3 → Scalar) 0 = x0 := rfl
  have e1 : (![x0, x1, x2] : Fin 3 → Scalar) 1 = x1 := rfl
  have e2 : (![x0, x1, x2] : Fin 3 → Scalar) 2 = x2 := rfl
  have d10 : x1 - x0 ≠ 0 := sub_ne_zero.mpr (Ne.symm h01)
  have d20 : x2 - x0 ≠ 0 := sub_ne_zero.mpr (Ne.symm h02)
  have d21 : x2 - x1 ≠ 0 := sub_ne_zero.mpr (Ne.symm h12)
  have d01 : x0 - x1 ≠ 0 := sub_ne_zero.mpr h01
  have d02 : x0 - x2 ≠ 0 := sub_ne_zero.mpr h02
  have d12 : x1 - x2 ≠ 0 := sub_ne_zero.mpr h12
  unfold shamir_reconstruct lagrange_coeffs_at_zero
  rw [Fin.sum_univ_three, Fin.prod_univ_three, Fin.prod_univ_three, Fin.prod_univ_three]
  simp only [e0, e1, e2, Polynom.valueAt, evalCoeffs,
    show (0 : Fin 3) ≠ 1 by decide, show (0 : Fin 3) ≠ 2 by decide,
    show (1 : Fin 3) ≠ 0 by decide, show (1 : Fin 3) ≠ 2 by decide,
    show (2 : Fin 3) ≠ 0 by decide, show (2 : Fin 3) ≠ 1 by decide,
    ne_eq, not_false_eq_true, if_true, if_false, ite_true, ite_false]
  norm_num
  field_simp
  ring

/-- Witness for C2 at the polynomial `7 + x + 2x²` and the indices
`(1, 2, 3)`. -/
theorem C2_witness :
    ((1 : Scalar) ≠ 2 ∧ (1 : Scalar) ≠ 3 ∧ (2 : Scalar) ≠ 3 ∧
     (1 : Scalar) ≠ 0 ∧ (2 : Scalar) ≠ 0 ∧ (3 : Scalar) ≠ 0) ∧
    shamir_reconstruct ![1, 2, 3]
      ![(Polynom.mk [7, 1, 2]).valueAt 1, (Polynom.mk [7, 1, 2]).valueAt 2,
        (Polynom.mk [7, 1, 2]).valueAt 3] = 7 :=
  ⟨⟨by decide, by decide, by decide, by decide, by decide, by decide⟩,
   C2_shamir_reconstruct_recovers_secret 7 1 2 1 2 3 (by decide) (by decide) (by decide)
     (by decide) (by decide) (by decide)⟩

/-- C1: end-to-end correctness for n = 5, t = 3: with each party's final
share formed by summing the shares addressed to it
(`shares[i] = Σ_j s_arr[j][i]`), reconstructing from the final shares at
indices {1, 2, 3} yields a scalar whose fixed-base multiple equals the sum
of the five parties' unblinded Pedersen commitments — the aggregate public
key — for every choice of secrets `sk`, random polynomial coefficients
`c1`, `c2`, and blinders `r`. -/
theorem C1_end_to_end (sk c1 c2 r : Fin 5 → Scalar) :
    basepointMul (reconstructed_secret sk c1 c2) = public_key sk r := by
  have h2 : (2 : Scalar) ≠ 0 := by decide
  unfold reconstructed_secret shamir_reconstruct lagrange_coeffs_at_zero
    reconstruct_participants reconstruct_shares shares s_arr polynoms
    Polynom.ofSecret Polynom.valueAt public_key commits_unblinded commits
    blind unblind basepointMul xs G
  rw [Fin.sum_univ_three]
  simp only [Fin.prod_univ_three, Fin.sum_univ_five]
  norm_num [evalCoeffs, Fin.coe_castLE,
    show (0 : Fin 3) ≠ 1 by decide, show (0 : Fin 3) ≠ 2 by decide,
    show (1 : Fin 3) ≠ 0 by decide, show (1 : Fin 3) ≠ 2 by decide,
    show (2 : Fin 3) ≠ 0 by decide, show (2 : Fin 3) ≠ 1 by decide]
  field_simp
  ring
